import Mathlib

/-!
Shallow embedding of the roster engine of `src/main.py` (a Telegram football
sign-up bot).  The transport layer (Telegram updates, replies, persistence) is
abstracted away; what is modelled is the per-chat event state (the value stored
under the `"event"` key of `chat_data`) and the pure state transformations the
handlers perform on it.  Timestamps (the strings produced by `now_iso()`) are
modelled as abstract `Nat` values passed in as `now`; replies are modelled as
result values.  The admin check (`user_is_admin`) is an external collaborator
and is modelled as a boolean input.
-/

namespace BtPurmei

/-- Constant `DEFAULT_CAPACITY = 15` (src/main.py line 40). -/
def DEFAULT_CAPACITY : Int := 15

/-- Constant `WAITLIST_CAPACITY = 5` (src/main.py line 41). -/
def WAITLIST_CAPACITY : Int := 5

/-- Constant `VIP_NAMES = ["Albert", "Ah Soon"]` (src/main.py line 46). -/
def VIP_NAMES : List String := ["Albert", "Ah Soon"]

/-- A participant entry: the dicts `{user_id, name, joined_at, is_vip}` stored
in `players` / `waitlist`.  `user_id` is `none` for seeded VIP rows. -/
structure Row where
  user_id : Option Int
  name : String
  joined_at : Nat
  is_vip : Bool
deriving DecidableEq, Repr

/-- The event dict created by `ensure_event` / `newgame` (src/main.py lines
96-106 and 211-220). -/
structure Event where
  title : Option String
  capacity : Int
  locked : Bool
  players : List Row
  waitlist : List Row
  created_at : Nat
deriving DecidableEq, Repr

/-- The per-chat state: `chat_data["event"]`, absent before first access. -/
abbrev Chat := Option Event

/-- Function `ensure_event` (src/main.py lines 96-106): auto-initialize the default
event when absent. -/
def ensure_event (chat : Chat) (now : Nat) : Event :=
  match chat with
  | none =>
      { title := none
        capacity := DEFAULT_CAPACITY
        locked := false
        players := []
        waitlist := []
        created_at := now }
  | some e => e

/-- The loop body of `find_user` (src/main.py lines 109-113), carrying the
`enumerate` counter `i`. -/
def findUserFrom (lst : List Row) (uid : Int) (i : Nat) : Int :=
  match lst with
  | [] => -1
  | r :: rs => if r.user_id == some uid then (i : Int) else findUserFrom rs uid (i + 1)

/-- Function `find_user` (src/main.py lines 109-113): index of the first row whose
`user_id` equals `uid`, or `-1`. -/
def find_user (lst : List Row) (uid : Int) : Int :=
  findUserFrom lst uid 0

/-- One reserved VIP row (src/main.py lines 151-159). -/
def vipRow (nm : String) (now : Nat) : Row :=
  { user_id := none, name := nm, joined_at := now, is_vip := true }

/-- The loop of `vip_rows` (src/main.py lines 147-160): append a row per name
until `len(rows) >= capacity`. -/
def vipRowsLoop (names : List String) (capacity : Int) (now : Nat) (rows : List Row) :
    List Row :=
  match names with
  | [] => rows
  | nm :: rest =>
      if (rows.length : Int) ≥ capacity then rows
      else vipRowsLoop rest capacity now (rows ++ [vipRow nm now])

/-- Function `vip_rows` (src/main.py lines 145-160), generalized over the name list:
the source iterates the global `VIP_NAMES`; call sites of the embedding pass
`VIP_NAMES` explicitly. -/
def vip_rows (names : List String) (capacity : Int) (now : Nat) : List Row :=
  vipRowsLoop names capacity now []

/-- Python list slicing `l[:n]`, including the negative-index case used by
`seeded[:capacity]` in `newgame` (src/main.py line 217). -/
def pySliceTo (n : Int) (l : List α) : List α :=
  if 0 ≤ n then l.take n.toNat else l.take ((l.length : Int) + n).toNat

/-- The reply produced by `handle_join` (src/main.py lines 307-344), one
constructor per branch. -/
inductive JoinResult where
  | lockedRefusal
  | alreadyConfirmed (pos : Int)
  | alreadyWaitlisted (pos : Int)
  | confirmedOk (pos : Nat)
  | waitlistedOk (pos : Nat)
  | fullRefusal
deriving DecidableEq, Repr

/-- Function `handle_join` (src/main.py lines 307-344): the branch structure is exactly
the source's; the returned `Event` is the roster after the call. -/
def handle_join (chat : Chat) (uid : Int) (display_name : String) (now : Nat) :
    JoinResult × Event :=
  let event := ensure_event chat now
  if event.locked then (.lockedRefusal, event)
  else
    let i := find_user event.players uid
    if i ≠ -1 then (.alreadyConfirmed (i + 1), event)
    else
      let j := find_user event.waitlist uid
      if j ≠ -1 then (.alreadyWaitlisted (j + 1), event)
      else
        let capacity := event.capacity
        let entry : Row :=
          { user_id := some uid, name := display_name, joined_at := now, is_vip := false }
        if (event.players.length : Int) < capacity then
          let event' := { event with players := event.players ++ [entry] }
          (.confirmedOk event'.players.length, event')
        else if (event.waitlist.length : Int) ≥ WAITLIST_CAPACITY then
          (.fullRefusal, event)
        else
          let event' := { event with waitlist := event.waitlist ++ [entry] }
          (.waitlistedOk event'.waitlist.length, event')

/-- Result of `handle_leave`; `leftConfirmed` carries the promoted row, if a
promotion occurred. -/
inductive LeaveResult where
  | leftConfirmed (promoted : Option Row)
  | leftWaitlist
  | notFound
deriving DecidableEq, Repr

/-- Modelled from the spec: `handle_leave` is referenced by `leave_cmd`
(src/main.py line 235) and `on_button` (line 286) but its definition is not
present in src/main.py; modelled from spec section 4.1 `leave`: remove the
caller from `confirmed` and promote the waitlist head if any, else remove the
caller from the waitlist, else refuse `NOT_FOUND`; no lock check. -/
def handle_leave (chat : Chat) (uid : Int) (now : Nat) : LeaveResult × Event :=
  let event := ensure_event chat now
  let i := find_user event.players uid
  if i ≠ -1 then
    let players' := event.players.eraseIdx i.toNat
    match event.waitlist with
    | [] => (.leftConfirmed none, { event with players := players' })
    | w :: rest =>
        (.leftConfirmed (some w), { event with players := players' ++ [w], waitlist := rest })
  else
    let j := find_user event.waitlist uid
    if j ≠ -1 then
      (.leftWaitlist, { event with waitlist := event.waitlist.eraseIdx j.toNat })
    else (.notFound, event)

/-- Outcome of an admin-gated command: refused (`FORBIDDEN`, the "Only admins
can ..." reply) or performed. -/
inductive CmdResult where
  | forbidden
  | done
deriving DecidableEq, Repr

/-- The event built by `newgame` after the admin check (src/main.py lines
190-220), generalized over the seeded name list (the source passes the global
`VIP_NAMES`).  `capArg` is the capacity parsed from the last argument token
(absent when no integer token was given); `titleArg` is the already-parsed
title text, if any. -/
def createRoster (names : List String) (titleArg : Option String) (capArg : Option Int)
    (chat : Chat) (now : Nat) : Event :=
  let event := ensure_event chat now
  let capacity := capArg.getD event.capacity
  let title := titleArg.getD (event.title.getD "Next Game")
  let seeded := vip_rows names (max 1 capacity) now
  { title := some title
    capacity := max 1 capacity
    locked := false
    players := pySliceTo capacity seeded
    waitlist := []
    created_at := now }

/-- Handler `newgame` (src/main.py lines 182-227): admin-gated; replaces the event. -/
def newgame (isAdmin : Bool) (titleArg : Option String) (capArg : Option Int)
    (chat : Chat) (now : Nat) : CmdResult × Chat :=
  if isAdmin then (.done, some (createRoster VIP_NAMES titleArg capArg chat now))
  else (.forbidden, chat)

/-- Handler `lock_cmd` (src/main.py lines 246-252): admin-gated, sets `locked := true`. -/
def lock_cmd (isAdmin : Bool) (chat : Chat) (now : Nat) : CmdResult × Chat :=
  if isAdmin then (.done, some { ensure_event chat now with locked := true })
  else (.forbidden, chat)

/-- Handler `unlock_cmd` (src/main.py lines 255-261): admin-gated, sets `locked := false`. -/
def unlock_cmd (isAdmin : Bool) (chat : Chat) (now : Nat) : CmdResult × Chat :=
  if isAdmin then (.done, some { ensure_event chat now with locked := false })
  else (.forbidden, chat)

/-- Handler `reset_cmd` (src/main.py lines 264-272): admin-gated; pops the event and
re-runs `ensure_event`, i.e. replaces the state with the auto-initialized
default. -/
def reset_cmd (isAdmin : Bool) (chat : Chat) (now : Nat) : CmdResult × Chat :=
  if isAdmin then (.done, some (ensure_event none now))
  else (.forbidden, chat)

/-- One engine request, with its admin flag where the handler checks one. -/
inductive Cmd where
  | newgameC (isAdmin : Bool) (titleArg : Option String) (capArg : Option Int)
  | joinC (uid : Int) (display_name : String)
  | leaveC (uid : Int)
  | lockC (isAdmin : Bool)
  | unlockC (isAdmin : Bool)
  | resetC (isAdmin : Bool)
deriving DecidableEq, Repr

/-- The state transition of one request (the new `chat_data["event"]`).  `join`
and `leave` store the event `ensure_event` materialized, as the handlers mutate
`chat_data` through it. -/
def step (chat : Chat) (c : Cmd) (now : Nat) : Chat :=
  match c with
  | .newgameC a t cap => (newgame a t cap chat now).2
  | .joinC uid nm => some (handle_join chat uid nm now).2
  | .leaveC uid => some (handle_leave chat uid now).2
  | .lockC a => (lock_cmd a chat now).2
  | .unlockC a => (unlock_cmd a chat now).2
  | .resetC a => (reset_cmd a chat now).2

/-- Run a sequence of requests (each with the time it arrives) from a state. -/
def run (chat : Chat) : List (Cmd × Nat) → Chat
  | [] => chat
  | (c, now) :: rest => run (step chat c now) rest

/-- Spec section 8 size bounds, as a predicate on one event. -/
def sizeOk (e : Event) : Prop :=
  (e.players.length : Int) ≤ e.capacity ∧ (e.waitlist.length : Int) ≤ WAITLIST_CAPACITY

/-- The non-null identifiers present in a roster, confirmed list first. -/
def rosterIds (e : Event) : List Int :=
  (e.players ++ e.waitlist).filterMap Row.user_id

/-- Spec section 3 identifier invariant: the non-null identifiers of
confirmed + waitlist are pairwise distinct. -/
def idsOk (e : Event) : Prop :=
  (rosterIds e).Nodup

/-- The membership test `row.get("user_id") == user_id` of `find_user`, as a
`Bool`-valued predicate on rows. -/
def hasId (uid : Int) (r : Row) : Bool :=
  r.user_id == some uid

/-! ### Lemmas about `find_user` -/

theorem findUserFrom_eq (lst : List Row) (uid : Int) (i : Nat) :
    findUserFrom lst uid i =
      ((lst.findIdx? (hasId uid) i).map (fun k => (k : Int))).getD (-1) := by
  induction lst generalizing i with
  | nil => rfl
  | cons r rs ih =>
      by_cases h : hasId uid r
      · simp [findUserFrom, List.findIdx?_cons, hasId] at h ⊢
        simp [h]
      · simp only [findUserFrom, List.findIdx?_cons]
        rw [if_neg (by simpa [hasId] using h), if_neg (by simpa [hasId] using h), ih]

theorem find_user_eq (lst : List Row) (uid : Int) :
    find_user lst uid = ((lst.findIdx? (hasId uid)).map (fun k => (k : Int))).getD (-1) :=
  findUserFrom_eq lst uid 0

theorem find_user_of_findIdx?_some {lst : List Row} {uid : Int} {k : Nat}
    (h : lst.findIdx? (hasId uid) = some k) : find_user lst uid = (k : Int) := by
  rw [find_user_eq, h]; rfl

theorem find_user_of_findIdx?_none {lst : List Row} {uid : Int}
    (h : lst.findIdx? (hasId uid) = none) : find_user lst uid = -1 := by
  rw [find_user_eq, h]; rfl

theorem find_user_ne_neg_one {lst : List Row} {uid : Int} (h : find_user lst uid ≠ -1) :
    ∃ k : Nat, lst.findIdx? (hasId uid) = some k ∧ find_user lst uid = (k : Int) := by
  rcases hf : lst.findIdx? (hasId uid) with _ | k
  · exact absurd (find_user_of_findIdx?_none hf) h
  · exact ⟨k, rfl, find_user_of_findIdx?_some hf⟩

theorem find_user_eq_neg_one_iff (lst : List Row) (uid : Int) :
    find_user lst uid = -1 ↔ ∀ r ∈ lst, r.user_id ≠ some uid := by
  constructor
  · intro h r hr heq
    rcases hf : lst.findIdx? (hasId uid) with _ | k
    · rw [List.findIdx?_eq_none_iff] at hf
      have := hf r hr
      simp [hasId, heq] at this
    · have := find_user_of_findIdx?_some hf
      omega
  · intro h
    apply find_user_of_findIdx?_none
    rw [List.findIdx?_eq_none_iff]
    intro r hr
    simp [hasId, h r hr]

theorem findIdx?_hasId_lt_length {lst : List Row} {uid : Int} {k : Nat}
    (h : lst.findIdx? (hasId uid) = some k) : k < lst.length := by
  rw [List.findIdx?_eq_some_iff_getElem] at h
  exact h.1

/-! ### Lemmas about `vip_rows` and slicing -/

theorem vipRowsLoop_eq (names : List String) (c : Int) (now : Nat) (rows : List Row) :
    vipRowsLoop names c now rows =
      rows ++ (names.take (c - rows.length).toNat).map (fun nm => vipRow nm now) := by
  induction names generalizing rows with
  | nil => simp [vipRowsLoop]
  | cons nm rest ih =>
      simp only [vipRowsLoop]
      by_cases h : (rows.length : Int) ≥ c
      · have h0 : (c - rows.length).toNat = 0 := by omega
        rw [if_pos h, h0]
        simp
      · have h1 : (c - ((rows.length : Int) + 1)).toNat = (c - rows.length).toNat - 1 := by
          omega
        have h2 : (c - rows.length).toNat = ((c - rows.length).toNat - 1) + 1 := by omega
        rw [if_neg h, ih, h2, List.take_succ_cons, List.append_assoc]
        simp [h1]

theorem vip_rows_eq (names : List String) (c : Int) (now : Nat) :
    vip_rows names c now = (names.take c.toNat).map (fun nm => vipRow nm now) := by
  simpa using vipRowsLoop_eq names c now []

theorem pySliceTo_length_le (n : Int) (l : List α) : (pySliceTo n l).length ≤ l.length := by
  unfold pySliceTo
  split <;> (rw [List.length_take]; omega)

theorem createRoster_players (names : List String) (titleArg : Option String) (c : Int)
    (chat : Chat) (now : Nat) :
    (createRoster names titleArg (some c) chat now).players =
      (names.take (min c (names.length : Int)).toNat).map (fun nm => vipRow nm now) := by
  show pySliceTo c (vip_rows names (max 1 c) now) = _
  rw [vip_rows_eq]
  by_cases hc : 1 ≤ c
  · have hm : max 1 c = c := max_eq_right hc
    rw [hm]
    unfold pySliceTo
    rw [if_pos (by omega), ← List.map_take, List.take_take]
    congr 1
    have : (min c (names.length : Int)).toNat = min c.toNat names.length := by omega
    rw [this, min_self]
    rcases le_or_lt c.toNat names.length with hle | hlt
    · rw [min_eq_left hle]
    · rw [min_eq_right hlt.le, List.take_of_length_le hlt.le, List.take_length]
  · have hm : max 1 c = 1 := max_eq_left (by omega)
    have hmin : (min c (names.length : Int)).toNat = 0 := by
      have : min c (names.length : Int) ≤ c := min_le_left _ _
      omega
    rw [hm, hmin, List.take_zero, List.map_nil]
    have hlen : ((names.take (1 : Int).toNat).map (fun nm => vipRow nm now)).length ≤ 1 := by
      simp [List.length_take]
    unfold pySliceTo
    split
    · have hc0 : c = 0 := by omega
      simp [hc0]
    · have : ((((names.take (1 : Int).toNat).map (fun nm => vipRow nm now)).length : Int) + c).toNat = 0 := by
        omega
      rw [this, List.take_zero]

/-! ### Claim theorems: lifecycle commands -/

/-- C7: every admin-gated operation (`newgame`/create, `lock`, `unlock`,
`reset`) invoked with `is_privileged_caller = false` refuses with `FORBIDDEN`
(the "Only admins can ..." reply) and leaves the state unmutated. -/
theorem admin_gate_forbidden (chat : Chat) (now : Nat) (titleArg : Option String)
    (capArg : Option Int) :
    newgame false titleArg capArg chat now = (.forbidden, chat) ∧
    lock_cmd false chat now = (.forbidden, chat) ∧
    unlock_cmd false chat now = (.forbidden, chat) ∧
    reset_cmd false chat now = (.forbidden, chat) :=
  ⟨rfl, rfl, rfl, rfl⟩

/-- C8: the state after an (admin) reset equals the state auto-initialized by
`ensure_event` on first access, and that roster has the default title (`none`),
default capacity, empty confirmed list, empty waitlist, and `locked = false`. -/
theorem reset_equiv_fresh (chat : Chat) (now : Nat) :
    (reset_cmd true chat now).2 = some (ensure_event none now) ∧
    (ensure_event none now).title = none ∧
    (ensure_event none now).capacity = DEFAULT_CAPACITY ∧
    (ensure_event none now).players = [] ∧
    (ensure_event none now).waitlist = [] ∧
    (ensure_event none now).locked = false :=
  ⟨rfl, rfl, rfl, rfl, rfl, rfl⟩

/-- C9: `lock` and `unlock` are idempotent — applying either twice yields the
same state as applying it once, and locking an already-locked roster is not an
error (the second call still reports success). -/
theorem lock_unlock_idempotent (chat : Chat) (now now' : Nat) :
    lock_cmd true (lock_cmd true chat now).2 now' = (.done, (lock_cmd true chat now).2) ∧
    unlock_cmd true (unlock_cmd true chat now).2 now' = (.done, (unlock_cmd true chat now).2) :=
  ⟨rfl, rfl⟩

/-- C5, counterexample: the claim says a non-positive capacity override makes
`createRoster` use the process-wide default capacity constant; but
`newgame` with capacity override `0` on a fresh chat produces capacity `1`
(`max(1, 0)`), not `DEFAULT_CAPACITY = 15`. -/
theorem newgame_capacity_default_cex :
    (newgame true none (some 0) none 0).2.map Event.capacity = some 1 ∧
    DEFAULT_CAPACITY = 15 ∧ (1 : Int) ≠ DEFAULT_CAPACITY := by
  refine ⟨by decide, rfl, by decide⟩

/-- C5, amended: `newgame` never rejects; the resulting capacity is
`max 1 (override or the current roster's capacity)`; with no override on a
fresh chat the default constant is used; a non-positive override is clamped to
`1`, not replaced by the default constant. -/
theorem newgame_capacity_clamp (chat : Chat) (now : Nat) (titleArg : Option String)
    (capArg : Option Int) :
    (newgame true titleArg capArg chat now).1 = .done ∧
    (newgame true titleArg capArg chat now).2.map Event.capacity =
      some (max 1 (capArg.getD (ensure_event chat now).capacity)) ∧
    (capArg = none → chat = none →
      (newgame true titleArg capArg chat now).2.map Event.capacity =
        some DEFAULT_CAPACITY) ∧
    (∀ c : Int, capArg = some c → c ≤ 0 →
      (newgame true titleArg capArg chat now).2.map Event.capacity = some 1) := by
  refine ⟨rfl, rfl, ?_, ?_⟩
  · rintro rfl rfl
    have h15 : max (1 : Int) DEFAULT_CAPACITY = DEFAULT_CAPACITY := by decide
    simp [newgame, createRoster, ensure_event, h15]
  · rintro c rfl hc
    have : max 1 c = 1 := max_eq_left (by omega)
    simp [newgame, createRoster, this]

/-- Witness for `newgame_capacity_clamp` at a concrete non-positive override. -/
theorem newgame_capacity_clamp_witness :
    (newgame true none (some (-7)) none 0).2.map Event.capacity = some 1 :=
  (newgame_capacity_clamp none 0 none (some (-7))).2.2.2 (-7) rfl (by decide)

/-- C6: `createRoster` seeds the confirmed list with one entry per privileged
name, in list order, capped at `min(capacity, len(names))`; seeded entries
have `identifier = none` and `is_privileged = true`; the result is unlocked
with an empty waitlist.  In particular capacity 3 with names
`["Vip1", "Vip2"]` yields exactly those two seeded entries. -/
theorem createRoster_seeding (names : List String) (titleArg : Option String) (c : Int)
    (chat : Chat) (now : Nat) :
    (createRoster names titleArg (some c) chat now).locked = false ∧
    (createRoster names titleArg (some c) chat now).waitlist = [] ∧
    (createRoster names titleArg (some c) chat now).players =
      (names.take (min c (names.length : Int)).toNat).map (fun nm => vipRow nm now) ∧
    (∀ r ∈ (createRoster names titleArg (some c) chat now).players,
      r.user_id = none ∧ r.is_vip = true) ∧
    (createRoster ["Vip1", "Vip2"] none (some 3) none 0).players =
      [vipRow "Vip1" 0, vipRow "Vip2" 0] ∧
    (createRoster ["Vip1", "Vip2"] none (some 3) none 0).waitlist = [] := by
  refine ⟨rfl, rfl, createRoster_players names titleArg c chat now, ?_, by decide, rfl⟩
  intro r hr
  rw [createRoster_players] at hr
  rcases List.mem_map.1 hr with ⟨nm, _, rfl⟩
  exact ⟨rfl, rfl⟩

/-- Witness for `createRoster_seeding`: the membership hypothesis discharged at
a concrete seeded entry. -/
theorem createRoster_seeding_witness :
    (vipRow "Vip1" 0).user_id = none ∧ (vipRow "Vip1" 0).is_vip = true :=
  (createRoster_seeding ["Vip1", "Vip2"] none 3 none 0).2.2.2.1 (vipRow "Vip1" 0) (by decide)

/-! ### Claim theorems: join -/

/-- C1: `handle_join` evaluates its branches in exactly the documented order:
locked → `LOCKED`; identifier found in `confirmed` (at first index `k`) →
`ALREADY_CONFIRMED` at 1-based position `k+1`; identifier found in the
waitlist → `ALREADY_WAITLISTED` at its 1-based position; confirmed list below
capacity → append a non-privileged entry, `CONFIRMED` at the new length;
waitlist below capacity → append, `WAITLISTED` at the new length; else
`FULL`.  Every refusal branch returns the roster unchanged. -/
theorem join_branch_order (e : Event) (uid : Int) (nm : String) (now : Nat) :
    (e.locked = true → handle_join (some e) uid nm now = (.lockedRefusal, e)) ∧
    (e.locked = false →
      (∀ k : Nat, e.players.findIdx? (hasId uid) = some k →
        handle_join (some e) uid nm now = (.alreadyConfirmed ((k : Int) + 1), e)) ∧
      (e.players.findIdx? (hasId uid) = none →
        (∀ k : Nat, e.waitlist.findIdx? (hasId uid) = some k →
          handle_join (some e) uid nm now = (.alreadyWaitlisted ((k : Int) + 1), e)) ∧
        (e.waitlist.findIdx? (hasId uid) = none →
          ((e.players.length : Int) < e.capacity →
            handle_join (some e) uid nm now =
              (.confirmedOk (e.players.length + 1),
                { e with players := e.players ++ [⟨some uid, nm, now, false⟩] })) ∧
          (¬ (e.players.length : Int) < e.capacity →
            ((e.waitlist.length : Int) < WAITLIST_CAPACITY →
              handle_join (some e) uid nm now =
                (.waitlistedOk (e.waitlist.length + 1),
                  { e with waitlist := e.waitlist ++ [⟨some uid, nm, now, false⟩] })) ∧
            (¬ (e.waitlist.length : Int) < WAITLIST_CAPACITY →
              handle_join (some e) uid nm now = (.fullRefusal, e)))))) := by
  constructor
  · intro hl
    simp [handle_join, ensure_event, hl]
  · intro hl
    constructor
    · intro k hk
      have hfu := find_user_of_findIdx?_some hk
      have hne : (k : Int) ≠ -1 := by omega
      simp [handle_join, ensure_event, hl, hfu, hne]
    · intro hp
      have hfp := find_user_of_findIdx?_none hp
      constructor
      · intro k hk
        have hfw := find_user_of_findIdx?_some hk
        have hne : (k : Int) ≠ -1 := by omega
        simp [handle_join, ensure_event, hl, hfp, hfw, hne]
      · intro hw
        have hfw := find_user_of_findIdx?_none hw
        constructor
        · intro hcap
          simp [handle_join, ensure_event, hl, hfp, hfw, hcap]
        · intro hncap
          constructor
          · intro hwl
            have hnge : ¬ (e.waitlist.length : Int) ≥ WAITLIST_CAPACITY := by omega
            simp [handle_join, ensure_event, hl, hfp, hfw, hncap, hnge]
          · intro hnwl
            have hge : (e.waitlist.length : Int) ≥ WAITLIST_CAPACITY := by omega
            simp [handle_join, ensure_event, hl, hfp, hfw, hncap, hge]

/-- A concrete locked roster, used by the witness below. -/
def lockedDemo : Event :=
  { title := none
    capacity := 2
    locked := true
    players := []
    waitlist := []
    created_at := 0 }

/-- Witness for `join_branch_order`: the locked branch at a concrete roster. -/
theorem join_branch_order_witness :
    handle_join (some lockedDemo) 9 "Zed" 1 = (.lockedRefusal, lockedDemo) :=
  (join_branch_order lockedDemo 9 "Zed" 1).1 rfl

/-! ### Claim theorems: leave and seeded entries -/

/-- A confirmed roster with waitlist `[A, B, C]`, for the promotion scenario. -/
def promoDemo : Event :=
  { title := none
    capacity := 1
    locked := false
    players := [⟨some 1, "P1", 0, false⟩]
    waitlist := [⟨some 2, "A", 0, false⟩, ⟨some 3, "B", 0, false⟩, ⟨some 4, "C", 0, false⟩]
    created_at := 0 }

/-- C2: `handle_leave` (modelled from the spec, the source being truncated
before its definition): a confirmed actor is removed at its index and, when
the waitlist is non-empty, the waitlist head is appended to the end of the
confirmed list (`LEFT_CONFIRMED`, reporting the promoted row); a waitlisted
actor is removed with no promotion (`LEFT_WAITLIST`); otherwise `NOT_FOUND`
with the roster unchanged.  In particular, with waitlist `[A, B, C]`, a
confirmed actor leaving promotes `A` and leaves waitlist `[B, C]`. -/
theorem leave_spec (e : Event) (uid : Int) (now : Nat) :
    (∀ k : Nat, e.players.findIdx? (hasId uid) = some k →
      (e.waitlist = [] →
        handle_leave (some e) uid now =
          (.leftConfirmed none, { e with players := e.players.eraseIdx k })) ∧
      (∀ w rest, e.waitlist = w :: rest →
        handle_leave (some e) uid now =
          (.leftConfirmed (some w),
            { e with players := e.players.eraseIdx k ++ [w], waitlist := rest }))) ∧
    (e.players.findIdx? (hasId uid) = none →
      (∀ k : Nat, e.waitlist.findIdx? (hasId uid) = some k →
        handle_leave (some e) uid now =
          (.leftWaitlist, { e with waitlist := e.waitlist.eraseIdx k })) ∧
      (e.waitlist.findIdx? (hasId uid) = none →
        handle_leave (some e) uid now = (.notFound, e))) ∧
    (handle_leave (some promoDemo) 1 0 =
      (.leftConfirmed (some ⟨some 2, "A", 0, false⟩),
        { promoDemo with players := [⟨some 2, "A", 0, false⟩],
                         waitlist := [⟨some 3, "B", 0, false⟩, ⟨some 4, "C", 0, false⟩] })) := by
  refine ⟨?_, ?_, by decide⟩
  · intro k hk
    have hfu := find_user_of_findIdx?_some hk
    have hne : (k : Int) ≠ -1 := by omega
    constructor
    · intro hwl
      simp [handle_leave, ensure_event, hfu, hne, hwl]
    · intro w rest hwl
      simp [handle_leave, ensure_event, hfu, hne, hwl]
  · intro hp
    have hfp := find_user_of_findIdx?_none hp
    constructor
    · intro k hk
      have hfw := find_user_of_findIdx?_some hk
      have hne : (k : Int) ≠ -1 := by omega
      simp [handle_leave, ensure_event, hfp, hfw, hne]
    · intro hw
      have hfw := find_user_of_findIdx?_none hw
      simp [handle_leave, ensure_event, hfp, hfw]

/-- Witness for `leave_spec`: the `NOT_FOUND` branch at a concrete roster. -/
theorem leave_spec_witness :
    handle_leave (some lockedDemo) 9 1 = (.notFound, lockedDemo) :=
  ((leave_spec lockedDemo 9 1).2.1 (by decide)).2 (by decide)

/-- C10: seeded privileged entries carry identifier `none` and `find_user`
compares identifiers only, so on a roster whose entries all have identifier
`none` a join never refuses with `ALREADY_CONFIRMED` / `ALREADY_WAITLISTED`;
in particular an actor displaying a VIP name ("Albert") is admitted as a
separate new non-privileged entry, so two entries share that display name. -/
theorem seeded_rows_never_block (e : Event) (uid : Int) (nm : String) (now : Nat) :
    ((∀ r ∈ e.players, r.user_id = none) → (∀ r ∈ e.waitlist, r.user_id = none) →
      ∀ p : Int,
        (handle_join (some e) uid nm now).1 ≠ .alreadyConfirmed p ∧
        (handle_join (some e) uid nm now).1 ≠ .alreadyWaitlisted p) ∧
    (handle_join (run none [(.newgameC true none none, 0)]) 100 "Albert" 1).1 =
      .confirmedOk 3 ∧
    ((handle_join (run none [(.newgameC true none none, 0)]) 100 "Albert" 1).2.players.map
        (fun r => (r.name, r.is_vip))) =
      [("Albert", true), ("Ah Soon", true), ("Albert", false)] := by
  refine ⟨?_, by decide, by decide⟩
  intro hp hw p
  have hfp : find_user e.players uid = -1 :=
    (find_user_eq_neg_one_iff _ _).2 (fun r hr => by simp [hp r hr])
  have hfw : find_user e.waitlist uid = -1 :=
    (find_user_eq_neg_one_iff _ _).2 (fun r hr => by simp [hw r hr])
  by_cases hl : e.locked
  · simp [handle_join, ensure_event, hl]
  · simp [handle_join, ensure_event, hl, hfp, hfw]
    constructor <;> split <;> (try split) <;> simp

/-- Witness for `seeded_rows_never_block`: the all-`none` hypothesis
discharged at a concrete freshly seeded roster. -/
theorem seeded_rows_never_block_witness :
    (handle_join (some (createRoster VIP_NAMES none (some 3) none 0)) 5 "Zed" 0).1 ≠
      JoinResult.alreadyConfirmed 1 :=
  ((seeded_rows_never_block (createRoster VIP_NAMES none (some 3) none 0) 5 "Zed" 0).1
    (by decide) (by decide) 1).1

/-! ### Reachability invariants -/

/-- An invariant holding of the event whenever one is stored. -/
def chatOk (P : Event → Prop) (chat : Chat) : Prop :=
  ∀ e, chat = some e → P e

theorem chatOk_some {P : Event → Prop} {e : Event} (h : P e) : chatOk P (some e) :=
  fun _ he => (Option.some.inj he) ▸ h

theorem sizeOk_default (now : Nat) : sizeOk (ensure_event none now) := by
  refine ⟨?_, ?_⟩ <;> norm_num [ensure_event, DEFAULT_CAPACITY, WAITLIST_CAPACITY]

theorem idsOk_default (now : Nat) : idsOk (ensure_event none now) := by
  simp [idsOk, rosterIds, ensure_event]

theorem sizeOk_ensure {chat : Chat} (h : chatOk sizeOk chat) (now : Nat) :
    sizeOk (ensure_event chat now) := by
  cases chat with
  | none => exact sizeOk_default now
  | some e => exact h e rfl

theorem idsOk_ensure {chat : Chat} (h : chatOk idsOk chat) (now : Nat) :
    idsOk (ensure_event chat now) := by
  cases chat with
  | none => exact idsOk_default now
  | some e => exact h e rfl

theorem createRoster_sizeOk (names : List String) (titleArg : Option String)
    (capArg : Option Int) (chat : Chat) (now : Nat) :
    sizeOk (createRoster names titleArg capArg chat now) := by
  set c := capArg.getD (ensure_event chat now).capacity with hc
  have h2 := pySliceTo_length_le c (vip_rows names (max 1 c) now)
  have h3 : (vip_rows names (max 1 c) now).length ≤ (max 1 c).toNat := by
    rw [vip_rows_eq]
    simp [List.length_take]
  have h4 : (1 : Int) ≤ max 1 c := le_max_left _ _
  have h5 : (((max 1 c).toNat : Nat) : Int) = max 1 c := Int.toNat_of_nonneg (by omega)
  refine ⟨?_, ?_⟩
  · show ((pySliceTo c (vip_rows names (max 1 c) now)).length : Int) ≤ max 1 c
    omega
  · show ((([] : List Row).length : Nat) : Int) ≤ WAITLIST_CAPACITY
    norm_num [WAITLIST_CAPACITY]

theorem createRoster_idsOk (names : List String) (titleArg : Option String)
    (capArg : Option Int) (chat : Chat) (now : Nat) :
    idsOk (createRoster names titleArg capArg chat now) := by
  set c := capArg.getD (ensure_event chat now).capacity with hc
  have hids : rosterIds (createRoster names titleArg capArg chat now) = [] := by
    show ((pySliceTo c (vip_rows names (max 1 c) now) ++ []).filterMap Row.user_id) = []
    rw [List.filterMap_eq_nil_iff]
    intro r hr
    rw [List.append_nil] at hr
    have hsub : (pySliceTo c (vip_rows names (max 1 c) now)).Sublist
        (vip_rows names (max 1 c) now) := by
      unfold pySliceTo
      split <;> exact List.take_sublist _ _
    have hr' := hsub.mem hr
    rw [vip_rows_eq] at hr'
    rcases List.mem_map.1 hr' with ⟨nm, _, rfl⟩
    rfl
  unfold idsOk
  rw [hids]
  exact List.nodup_nil

/-- Every state `handle_join` can return: either the materialized event
unchanged (a refusal or locked), or an append to `players` / `waitlist` under
the corresponding guard, the actor being in neither list. -/
theorem handle_join_state_cases (e : Event) (uid : Int) (nm : String) (now : Nat) :
    (handle_join (some e) uid nm now).2 = e ∨
    (find_user e.players uid = -1 ∧ find_user e.waitlist uid = -1 ∧
      (((e.players.length : Int) < e.capacity ∧
        (handle_join (some e) uid nm now).2 =
          { e with players := e.players ++ [⟨some uid, nm, now, false⟩] }) ∨
       (¬ (e.players.length : Int) < e.capacity ∧
        (e.waitlist.length : Int) < WAITLIST_CAPACITY ∧
        (handle_join (some e) uid nm now).2 =
          { e with waitlist := e.waitlist ++ [⟨some uid, nm, now, false⟩] }))) := by
  by_cases hl : e.locked
  · left
    simp [handle_join, ensure_event, hl]
  · by_cases hp : find_user e.players uid = -1
    · by_cases hw : find_user e.waitlist uid = -1
      · by_cases hcap : (e.players.length : Int) < e.capacity
        · right
          refine ⟨hp, hw, Or.inl ⟨hcap, ?_⟩⟩
          simp [handle_join, ensure_event, hl, hp, hw, hcap]
        · by_cases hwl : (e.waitlist.length : Int) ≥ WAITLIST_CAPACITY
          · left
            simp [handle_join, ensure_event, hl, hp, hw, hcap, hwl]
          · right
            refine ⟨hp, hw, Or.inr ⟨hcap, by omega, ?_⟩⟩
            simp [handle_join, ensure_event, hl, hp, hw, hcap, hwl]
      · left
        simp [handle_join, ensure_event, hl, hp, hw]
    · left
      simp [handle_join, ensure_event, hl, hp]

theorem handle_join_sizeOk {e : Event} (h : sizeOk e) (uid : Int) (nm : String) (now : Nat) :
    sizeOk (handle_join (some e) uid nm now).2 := by
  unfold sizeOk at h ⊢
  rcases handle_join_state_cases e uid nm now with h1 | ⟨_, _, ⟨hcap, h1⟩ | ⟨_, hwl, h1⟩⟩
  · rwa [h1]
  · rw [h1]
    refine ⟨?_, h.2⟩
    show (((e.players ++ [(⟨some uid, nm, now, false⟩ : Row)]).length : Nat) : Int) ≤ e.capacity
    rw [List.length_append, List.length_singleton]
    push_cast
    omega
  · rw [h1]
    refine ⟨h.1, ?_⟩
    show (((e.waitlist ++ [(⟨some uid, nm, now, false⟩ : Row)]).length : Nat) : Int) ≤
      WAITLIST_CAPACITY
    rw [List.length_append, List.length_singleton]
    push_cast
    omega

theorem not_mem_ids_of_find_user_neg {lst : List Row} {uid : Int}
    (h : find_user lst uid = -1) : uid ∉ lst.filterMap Row.user_id := by
  intro hmem
  rcases List.mem_filterMap.1 hmem with ⟨r, hr, hru⟩
  exact ((find_user_eq_neg_one_iff _ _).1 h r hr) hru

theorem handle_join_idsOk {e : Event} (h : idsOk e) (uid : Int) (nm : String) (now : Nat) :
    idsOk (handle_join (some e) uid nm now).2 := by
  rcases handle_join_state_cases e uid nm now with h1 | ⟨hp, hw, ⟨hcap, h1⟩ | ⟨hcap, hwl, h1⟩⟩
  · rwa [h1]
  · rw [h1]
    unfold idsOk rosterIds at h ⊢
    have hperm :
        ((e.players ++ [(⟨some uid, nm, now, false⟩ : Row)]) ++ e.waitlist).Perm
          ((⟨some uid, nm, now, false⟩ : Row) :: (e.players ++ e.waitlist)) :=
      (List.perm_append_singleton _ _).append_right e.waitlist
    rw [(hperm.filterMap Row.user_id).nodup_iff]
    rw [List.filterMap_cons]
    show (uid :: (e.players ++ e.waitlist).filterMap Row.user_id).Nodup
    rw [List.nodup_cons]
    refine ⟨?_, h⟩
    rw [List.filterMap_append, List.mem_append]
    rintro (hmem | hmem)
    · exact not_mem_ids_of_find_user_neg hp hmem
    · exact not_mem_ids_of_find_user_neg hw hmem
  · rw [h1]
    unfold idsOk rosterIds at h ⊢
    have heq : e.players ++ (e.waitlist ++ [(⟨some uid, nm, now, false⟩ : Row)]) =
        (e.players ++ e.waitlist) ++ [(⟨some uid, nm, now, false⟩ : Row)] :=
      (List.append_assoc _ _ _).symm
    rw [heq, ((List.perm_append_singleton _ _).filterMap Row.user_id).nodup_iff]
    rw [List.filterMap_cons]
    show (uid :: (e.players ++ e.waitlist).filterMap Row.user_id).Nodup
    rw [List.nodup_cons]
    refine ⟨?_, h⟩
    rw [List.filterMap_append, List.mem_append]
    rintro (hmem | hmem)
    · exact not_mem_ids_of_find_user_neg hp hmem
    · exact not_mem_ids_of_find_user_neg hw hmem

/-- Every state `handle_leave` can return: unchanged, a removal from
`players` at a valid index (with or without promotion of the waitlist head),
or a removal from the waitlist at a valid index. -/
theorem handle_leave_state_cases (e : Event) (uid : Int) (now : Nat) :
    (handle_leave (some e) uid now).2 = e ∨
    (∃ k : Nat, k < e.players.length ∧
      ((e.waitlist = [] ∧
        (handle_leave (some e) uid now).2 = { e with players := e.players.eraseIdx k }) ∨
       (∃ w rest, e.waitlist = w :: rest ∧
        (handle_leave (some e) uid now).2 =
          { e with players := e.players.eraseIdx k ++ [w], waitlist := rest }))) ∨
    (∃ k : Nat, k < e.waitlist.length ∧
      (handle_leave (some e) uid now).2 = { e with waitlist := e.waitlist.eraseIdx k }) := by
  by_cases hp : find_user e.players uid = -1
  · by_cases hw : find_user e.waitlist uid = -1
    · left
      simp [handle_leave, ensure_event, hp, hw]
    · rcases find_user_ne_neg_one hw with ⟨k, hk, hfw⟩
      right; right
      refine ⟨k, findIdx?_hasId_lt_length hk, ?_⟩
      have hne : (k : Int) ≠ -1 := by omega
      simp [handle_leave, ensure_event, hp, hfw, hne, Int.toNat_natCast]
  · rcases find_user_ne_neg_one hp with ⟨k, hk, hfp⟩
    right; left
    refine ⟨k, findIdx?_hasId_lt_length hk, ?_⟩
    have hne : (k : Int) ≠ -1 := by omega
    rcases hwl : e.waitlist with _ | ⟨w, rest⟩
    · left
      refine ⟨rfl, ?_⟩
      simp [handle_leave, ensure_event, hfp, hne, hwl, Int.toNat_natCast]
    · right
      refine ⟨w, rest, rfl, ?_⟩
      simp [handle_leave, ensure_event, hfp, hne, hwl, Int.toNat_natCast]

theorem handle_leave_sizeOk {e : Event} (h : sizeOk e) (uid : Int) (now : Nat) :
    sizeOk (handle_leave (some e) uid now).2 := by
  unfold sizeOk at h ⊢
  rcases handle_leave_state_cases e uid now with
    h1 | ⟨k, hk, ⟨hwl, h1⟩ | ⟨w, rest, hwl, h1⟩⟩ | ⟨k, hk, h1⟩
  · rwa [h1]
  · rw [h1]
    refine ⟨?_, h.2⟩
    show (((e.players.eraseIdx k).length : Nat) : Int) ≤ e.capacity
    have h2 : (e.players.eraseIdx k).length ≤ e.players.length := by
      rw [List.length_eraseIdx]
      split <;> omega
    have h3 := h.1
    omega
  · rw [h1]
    have hlenw : e.waitlist.length = rest.length + 1 := by rw [hwl]; rfl
    have hw2 := h.2
    refine ⟨?_, ?_⟩
    · show (((e.players.eraseIdx k ++ [w]).length : Nat) : Int) ≤ e.capacity
      have h2 : (e.players.eraseIdx k ++ [w]).length = e.players.length := by
        rw [List.length_append, List.length_eraseIdx, if_pos hk, List.length_singleton]
        omega
      have h3 := h.1
      omega
    · show ((rest.length : Nat) : Int) ≤ WAITLIST_CAPACITY
      omega
  · rw [h1]
    refine ⟨h.1, ?_⟩
    show (((e.waitlist.eraseIdx k).length : Nat) : Int) ≤ WAITLIST_CAPACITY
    have h2 : (e.waitlist.eraseIdx k).length ≤ e.waitlist.length := by
      rw [List.length_eraseIdx]
      split <;> omega
    have h3 := h.2
    omega

theorem handle_leave_idsOk {e : Event} (h : idsOk e) (uid : Int) (now : Nat) :
    idsOk (handle_leave (some e) uid now).2 := by
  rcases handle_leave_state_cases e uid now with
    h1 | ⟨k, hk, ⟨hwl, h1⟩ | ⟨w, rest, hwl, h1⟩⟩ | ⟨k, hk, h1⟩
  · rwa [h1]
  · rw [h1]
    unfold idsOk rosterIds at h ⊢
    exact (((List.eraseIdx_sublist e.players k).append_right e.waitlist).filterMap
      Row.user_id).nodup h
  · rw [h1]
    unfold idsOk rosterIds at h ⊢
    have hsub : ((e.players.eraseIdx k ++ [w]) ++ rest).Sublist (e.players ++ e.waitlist) := by
      rw [hwl, List.append_assoc, List.singleton_append]
      exact (List.eraseIdx_sublist e.players k).append_right (w :: rest)
    exact (hsub.filterMap Row.user_id).nodup h
  · rw [h1]
    unfold idsOk rosterIds at h ⊢
    exact (((List.eraseIdx_sublist e.waitlist k).append_left e.players).filterMap
      Row.user_id).nodup h

theorem handle_join_ensure (chat : Chat) (uid : Int) (nm : String) (now : Nat) :
    handle_join chat uid nm now = handle_join (some (ensure_event chat now)) uid nm now := by
  cases chat <;> rfl

theorem handle_leave_ensure (chat : Chat) (uid : Int) (now : Nat) :
    handle_leave chat uid now = handle_leave (some (ensure_event chat now)) uid now := by
  cases chat <;> rfl

theorem step_sizeOk {chat : Chat} (h : chatOk sizeOk chat) (c : Cmd) (now : Nat) :
    chatOk sizeOk (step chat c now) := by
  cases c with
  | newgameC a t cap =>
      cases a
      · exact h
      · exact chatOk_some (createRoster_sizeOk _ _ _ _ _)
  | joinC uid nm =>
      refine chatOk_some ?_
      rw [handle_join_ensure]
      exact handle_join_sizeOk (sizeOk_ensure h now) uid nm now
  | leaveC uid =>
      refine chatOk_some ?_
      rw [handle_leave_ensure]
      exact handle_leave_sizeOk (sizeOk_ensure h now) uid now
  | lockC a =>
      cases a
      · exact h
      · exact chatOk_some (sizeOk_ensure h now)
  | unlockC a =>
      cases a
      · exact h
      · exact chatOk_some (sizeOk_ensure h now)
  | resetC a =>
      cases a
      · exact h
      · exact chatOk_some (sizeOk_default now)

theorem step_idsOk {chat : Chat} (h : chatOk idsOk chat) (c : Cmd) (now : Nat) :
    chatOk idsOk (step chat c now) := by
  cases c with
  | newgameC a t cap =>
      cases a
      · exact h
      · exact chatOk_some (createRoster_idsOk _ _ _ _ _)
  | joinC uid nm =>
      refine chatOk_some ?_
      rw [handle_join_ensure]
      exact handle_join_idsOk (idsOk_ensure h now) uid nm now
  | leaveC uid =>
      refine chatOk_some ?_
      rw [handle_leave_ensure]
      exact handle_leave_idsOk (idsOk_ensure h now) uid now
  | lockC a =>
      cases a
      · exact h
      · exact chatOk_some (idsOk_ensure h now)
  | unlockC a =>
      cases a
      · exact h
      · exact chatOk_some (idsOk_ensure h now)
  | resetC a =>
      cases a
      · exact h
      · exact chatOk_some (idsOk_default now)

theorem run_sizeOk (cmds : List (Cmd × Nat)) (chat : Chat) (h : chatOk sizeOk chat) :
    chatOk sizeOk (run chat cmds) := by
  induction cmds generalizing chat with
  | nil => exact h
  | cons p rest ih => exact ih _ (step_sizeOk h p.1 p.2)

theorem run_idsOk (cmds : List (Cmd × Nat)) (chat : Chat) (h : chatOk idsOk chat) :
    chatOk idsOk (run chat cmds) := by
  induction cmds generalizing chat with
  | nil => exact h
  | cons p rest ih => exact ih _ (step_idsOk h p.1 p.2)

/-- C3: every roster reachable from the initial (absent) state by any sequence
of `newgame`/create, join, leave, lock, unlock and reset requests satisfies
`len(players) ≤ capacity` and `len(waitlist) ≤ WAITLIST_CAPACITY`. -/
theorem reachable_size_bounds (cmds : List (Cmd × Nat)) (e : Event)
    (h : run none cmds = some e) :
    (e.players.length : Int) ≤ e.capacity ∧
    (e.waitlist.length : Int) ≤ WAITLIST_CAPACITY :=
  run_sizeOk cmds none (fun _ h0 => nomatch h0) e h

/-- C4: in every reachable roster the non-null identifiers across the
confirmed list and waitlist combined are pairwise distinct (seeded privileged
entries carry identifier `none`, i.e. no identifier, per the data model). -/
theorem reachable_ids_nodup (cmds : List (Cmd × Nat)) (e : Event)
    (h : run none cmds = some e) : (rosterIds e).Nodup :=
  run_idsOk cmds none (fun _ h0 => nomatch h0) e h

/-- A concrete request trace: create with capacity 2 (both VIPs seeded), then
two joins that land on the waitlist. -/
def demoRun : List (Cmd × Nat) :=
  [(.newgameC true none (some 2), 0), (.joinC 7 "Dana", 1), (.joinC 8 "Eli", 2)]

/-- The roster `demoRun` reaches. -/
def demoEv : Event :=
  { title := some "Next Game"
    capacity := 2
    locked := false
    players := [vipRow "Albert" 0, vipRow "Ah Soon" 0]
    waitlist := [⟨some 7, "Dana", 1, false⟩, ⟨some 8, "Eli", 2, false⟩]
    created_at := 0 }

/-- Witness for `reachable_size_bounds` on the concrete trace `demoRun`. -/
theorem reachable_size_bounds_witness :
    (demoEv.players.length : Int) ≤ demoEv.capacity ∧
    (demoEv.waitlist.length : Int) ≤ WAITLIST_CAPACITY :=
  reachable_size_bounds demoRun demoEv (by decide)

/-- Witness for `reachable_ids_nodup` on the concrete trace `demoRun`. -/
theorem reachable_ids_nodup_witness : (rosterIds demoEv).Nodup :=
  reachable_ids_nodup demoRun demoEv (by decide)

end BtPurmei
